import Mathlib

/-!
Shallow embedding of the job-dispatch core of `multi` (src/multi.go).

Go strings are modelled as `List Char`, since the program iterates over
strings with `for _, c := range s`, i.e. by code point.  Goroutine-based
dispatch is modelled by an explicit list of per-job results together with
an arbitrary delivery order (a permutation) for the error channel.
-/

namespace Multi

/-- Embeds `format` (src/multi.go lines 154-185).  The fold state is the
pair `(retval, lastPercent)`.  Note the `%%` branch mirrors the source
exactly: `retval = "%"` is an assignment, not an append. -/
def format (fmtstr : List Char) (tid : Nat) (item : List Char) : List Char :=
  (fmtstr.foldl
    (fun (st : List Char × Bool) (c : Char) =>
      if c = '%' then
        if st.2 then (['%'], false)
        else (st.1, true)
      else
        if st.2 then
          ((match c with
             | 't' => st.1 ++ Nat.toDigits 10 tid
             | 'i' => st.1 ++ item
             | _ => st.1), false)
        else (st.1 ++ [c], false))
    ([], false)).1

/-- Embeds the count/items reconciliation at the top of `runN`
(src/multi.go lines 116-122): if more items than count, the count grows to
the item count; otherwise the items are padded with empty strings up to
the count (Go's `make`/`copy`). -/
def reconcile (items : List (List Char)) (count : Nat) : Nat × List (List Char) :=
  if items.length > count then (items.length, items)
  else (count, items ++ List.replicate (count - items.length) [])

/-- Embeds the spawn loop of `runN` (src/multi.go lines 124-129): one
invocation of `fun` per thread id `0..count-1`, each receiving
`items[tid]`.  The result list is indexed by thread id; entry `tid` is
what job `tid` sends on the error channel (`none` for a nil error). -/
def runNResults {E : Type} (items : List (List Char)) (count : Nat)
    (fun' : Nat → List Char → Option E) : List (Option E) :=
  (List.range (reconcile items count).1).map
    (fun tid => fun' tid ((reconcile items count).2.getD tid []))

/-- Embeds the receive loop of `runN` (src/multi.go lines 131-139): the
channel delivers one value per job in some order; non-nil errors are
appended to `outerErrs`. -/
def runNCollect {E : Type} (delivered : List (Option E)) : List E :=
  delivered.filterMap id

/-- An observable event of `processErrors`: a line written to standard
error, or the function's return value. -/
inductive PEvent : Type where
  | stderrLine : List Char → PEvent
  | ret : Option (List Char) → PEvent
deriving DecidableEq

/-- The aggregate error message of `processErrors` (src/multi.go line 148). -/
def someErrorsMsg : List Char := "some commands had errors".toList

/-- Embeds `processErrors` (src/multi.go lines 142-152) as its trace of
observable events: each error is printed to standard error with a
trailing newline, in order, and then the function returns a non-nil
aggregate error exactly when the list was non-empty. -/
def processErrors (errs : List (List Char)) : List PEvent :=
  errs.map (fun e => PEvent.stderrLine (e ++ ['\n']))
    ++ [PEvent.ret (if errs.length > 0 then some someErrorsMsg else none)]

/-- Embeds Go's `strings.Split(text, "\n")` on code points
(src/multi.go line 193): the pieces of `text` between newlines; always
non-empty. -/
def splitNL : List Char → List (List Char)
  | [] => [[]]
  | c :: cs =>
    match splitNL cs with
    | [] => [[c]]
    | h :: t => if c = '\n' then [] :: h :: t else (c :: h) :: t

/-- Embeds `readLines` (src/multi.go lines 187-200) after the I/O read:
split on newlines, and drop the final piece when it is empty. -/
def readLines (text : List Char) : List (List Char) :=
  if (splitNL text).getLastD [] = [] then (splitNL text).dropLast else splitNL text

/-- Embeds the host normalization inside the ssh executor closure
(src/multi.go lines 331-333): append ":22" when the entry has no colon. -/
def normalizeHost (h : List Char) : List Char :=
  if ':' ∈ h then h else h ++ [':', '2', '2']

/-- Embeds the host lookup of the ssh executor closure
(src/multi.go line 330) together with the normalization: job `tid`
connects to `hosts[tid / count]`.  Out-of-range lookup is modelled by
`getD` here; the bounds question itself is treated separately by
`sshSafe`. -/
def sshHost (hosts : List (List Char)) (count : Nat) (tid : Nat) : List Char :=
  normalizeHost (hosts.getD (tid / count) [])

/-- The sequence of hosts the ssh run connects to, one per job, as
produced by `runN input (count * len hosts)` feeding the executor closure
(src/multi.go line 328). -/
def sshRunHosts (hosts : List (List Char)) (count : Nat)
    (input : List (List Char)) : List (List Char) :=
  (List.range (reconcile input (count * hosts.length)).1).map (sshHost hosts count)

/-- The error message returned by `sshCommand` when fewer than two
positional arguments are given (src/multi.go line 260). -/
def mustSupplyHostMsg : List Char :=
  "must supply a host list file and command to run".toList

/-- Embeds the control flow of `sshCommand` (src/multi.go lines 258-369)
with the I/O results supplied as parameters: `args` the positional
arguments, `hosts` the parsed host-list file, `input` the stdin lines
(empty when input mode is off).  File, credential and agent reads, which
can each abort with their own error, are abstracted as having succeeded;
the only validation the source performs on the parsed data itself is the
argument-count check, after which it dispatches `runN` over
`count * len(hosts)` jobs and passes the collected errors to
`processErrors`.  Results are collected here in spawn order; any delivery
order yields the same trace up to permutation of the error list. -/
def sshOutcome (args hosts input : List (List Char)) (count : Nat)
    (fun' : Nat → List Char → Option (List Char)) : Except (List Char) (List PEvent) :=
  if args.length < 2 then Except.error mustSupplyHostMsg
  else Except.ok (processErrors (runNCollect (runNResults input (count * hosts.length) fun')))

/-- Embeds the `count, c` flag of `commonFlags` (src/multi.go lines
58-62): the declared default `Value: 1` is what `ctx.Uint("count")`
returns when the flag is not supplied; a supplied value (including 0) is
returned as-is. -/
def countFlag (supplied : Option Nat) : Nat :=
  supplied.getD 1

/-- The in-bounds condition for the ssh executor's host lookup
`hosts[tid / count]` over every job the dispatcher spawns: Go requires a
non-zero divisor and an index below the list length. -/
def sshSafe (hosts input : List (List Char)) (count : Nat) : Prop :=
  ∀ tid, tid < (reconcile input (count * hosts.length)).1 →
    count ≠ 0 ∧ tid / count < hosts.length

/-! Helper lemmas shared by the claim theorems. -/

lemma reconcile_fst (items : List (List Char)) (count : Nat) :
    (reconcile items count).1 = max count items.length := by
  unfold reconcile
  by_cases h : items.length > count
  · rw [if_pos h]
    exact (Nat.max_eq_right (Nat.le_of_lt h)).symm
  · rw [if_neg h]
    exact (Nat.max_eq_left (Nat.le_of_not_lt h)).symm

lemma getD_replicate_nil (k j : Nat) :
    (List.replicate k ([] : List Char)).getD j [] = [] := by
  induction k generalizing j with
  | zero => simp [List.getD]
  | succ n ih =>
    cases j with
    | zero => simp [List.replicate_succ]
    | succ j =>
      rw [List.replicate_succ, List.getD_cons_succ]
      exact ih j

lemma reconcile_getD (items : List (List Char)) (count i : Nat)
    (h : i < max count items.length) :
    (reconcile items count).2.getD i []
      = if i < items.length then items.getD i [] else [] := by
  unfold reconcile
  by_cases hgt : items.length > count
  · rw [if_pos hgt]
    have hi : i < items.length := by
      rw [Nat.max_eq_right (Nat.le_of_lt hgt)] at h
      exact h
    rw [if_pos hi]
  · rw [if_neg hgt]
    by_cases hi : i < items.length
    · rw [if_pos hi]
      exact List.getD_append _ _ _ _ hi
    · rw [if_neg hi]
      rw [List.getD_append_right _ _ _ _ (Nat.le_of_not_lt hi)]
      exact getD_replicate_nil _ _

lemma runNResults_length {E : Type} (items : List (List Char)) (count : Nat)
    (f : Nat → List Char → Option E) :
    (runNResults items count f).length = (reconcile items count).1 := by
  unfold runNResults
  rw [List.length_map, List.length_range]

lemma runNResults_getElem {E : Type} (items : List (List Char)) (count : Nat)
    (f : Nat → List Char → Option E) (i : Nat)
    (h : i < (reconcile items count).1) :
    (runNResults items count f)[i]?
      = some (f i ((reconcile items count).2.getD i [])) := by
  unfold runNResults
  rw [List.getElem?_map, List.getElem?_range h]
  rfl

lemma splitNL_ne_nil (text : List Char) : splitNL text ≠ [] := by
  cases text with
  | nil => simp [splitNL]
  | cons c cs =>
    rw [splitNL]
    rcases h : splitNL cs with _ | ⟨a, l⟩
    · simp
    · by_cases hc : c = '\n' <;> simp [hc]

lemma splitNL_append_line (l t : List Char) (hl : '\n' ∉ l) :
    splitNL (l ++ '\n' :: t) = l :: splitNL t := by
  induction l with
  | nil =>
    rw [List.nil_append, splitNL]
    rcases h : splitNL t with _ | ⟨a, r⟩
    · exact absurd h (splitNL_ne_nil t)
    · simp
  | cons c cs ih =>
    have hc : c ≠ '\n' := fun hh => hl (hh ▸ List.mem_cons_self c cs)
    have hcs : '\n' ∉ cs := fun hh => hl (List.mem_cons_of_mem c hh)
    rw [List.cons_append, splitNL, ih hcs]
    simp [hc]

lemma splitNL_cons_eq (c : Char) (cs : List Char) (a : List Char)
    (r : List (List Char)) (hs : splitNL cs = a :: r) :
    splitNL (c :: cs) = if c = '\n' then [] :: a :: r else (c :: a) :: r := by
  rw [splitNL, hs]

lemma splitNL_join (ls : List (List Char)) (h : ∀ l ∈ ls, '\n' ∉ l) :
    splitNL ((ls.map (fun l => l ++ ['\n'])).flatten) = ls ++ [[]] := by
  induction ls with
  | nil => simp [splitNL]
  | cons l rest ih =>
    rw [List.map_cons, List.flatten_cons]
    have harr : (l ++ ['\n']) ++ (rest.map (fun l => l ++ ['\n'])).flatten
        = l ++ '\n' :: (rest.map (fun l => l ++ ['\n'])).flatten := by
      rw [List.append_assoc]
      rfl
    rw [harr, splitNL_append_line _ _ (h l (List.mem_cons_self l rest)),
      ih (fun x hx => h x (List.mem_cons_of_mem l hx))]
    rfl

lemma splitNL_getLast_ne (text : List Char) (h1 : text ≠ [])
    (h2 : text.getLast? ≠ some '\n') :
    ∀ x, (splitNL text).getLast? = some x → x ≠ [] := by
  induction text with
  | nil => exact absurd rfl h1
  | cons c cs ih =>
    cases cs with
    | nil =>
      have hc : c ≠ '\n' := by simpa using h2
      intro x hx
      rw [splitNL_cons_eq c [] [] [] rfl, if_neg hc] at hx
      simp at hx
      subst hx
      simp
    | cons d ds =>
      have h2' : (d :: ds).getLast? ≠ some '\n' := by
        rwa [List.getLast?_cons_cons] at h2
      have ih' := ih (by simp) h2'
      intro x hx
      rcases hs : splitNL (d :: ds) with _ | ⟨a, r⟩
      · exact absurd hs (splitNL_ne_nil _)
      · rw [hs] at ih'
        rw [splitNL_cons_eq c (d :: ds) a r hs] at hx
        by_cases hc : c = '\n'
        · rw [if_pos hc, List.getLast?_cons_cons] at hx
          exact ih' x hx
        · rw [if_neg hc] at hx
          cases r with
          | nil =>
            simp at hx
            subst hx
            simp
          | cons b bs =>
            rw [List.getLast?_cons_cons] at hx
            refine ih' x ?_
            rw [List.getLast?_cons_cons]
            exact hx

/-! Claim theorems. -/

/-- C1: the claim says `%%` is replaced by a single literal `%` with every
other character passed through unchanged; the code instead resets the
accumulated output to `"%"` in the `%%` branch (src/multi.go line 162), so
`format "a%%b" 0 ""` evaluates to `"%b"` rather than the claimed `"a%b"`. -/
theorem format_double_percent_eval :
    format ['a', '%', '%', 'b'] 0 [] = ['%', 'b']
    ∧ format ['a', '%', '%', 'b'] 0 [] ≠ ['a', '%', 'b'] := by
  decide

/-- C7: the three formatter example equations hold:
`format "%t-%i" 3 "x" = "3-x"`, `format "%%t" 3 "x" = "%t"`, and
`format "a%zb" 0 "" = "ab"`. -/
theorem format_examples :
    format ['%', 't', '-', '%', 'i'] 3 ['x'] = ['3', '-', 'x']
    ∧ format ['%', '%', 't'] 3 ['x'] = ['%', 't']
    ∧ format ['a', '%', 'z', 'b'] 0 [] = ['a', 'b'] := by
  decide

/-- C2: with input mode enabled, the reconciled job count is
`N = max c (len L)`, and the executor runs once for each index
`i ∈ [0, N)` with item `L[i]` when `i < len L` and the empty item
otherwise; in particular count 5 with lines `["a","b"]` yields 5 jobs
with items `["a","b","","",""]`, and count 1 with lines `["a","b","c"]`
yields 3 jobs with those items. -/
theorem runN_input_reconciliation :
    ∀ (c : Nat) (L : List (List Char)) (f : Nat → List Char → Option (List Char)),
    (runNResults L c f).length = max c L.length
    ∧ (∀ i, i < max c L.length →
        (runNResults L c f)[i]? = some (f i (if i < L.length then L.getD i [] else [])))
    ∧ reconcile [['a'], ['b']] 5 = (5, [['a'], ['b'], [], [], []])
    ∧ reconcile [['a'], ['b'], ['c']] 1 = (3, [['a'], ['b'], ['c']]) := by
  intro c L f
  refine ⟨?_, ?_, by decide, by decide⟩
  · rw [runNResults_length, reconcile_fst]
  · intro i hi
    rw [runNResults_getElem L c f i (by rw [reconcile_fst]; exact hi),
      reconcile_getD L c i hi]

/-- C2 witness: instantiation at count 5, lines `["a","b"]`, index 3. -/
theorem runN_input_reconciliation_witness :
    (runNResults [['a'], ['b']] 5 (fun _ _ => (none : Option (List Char)))).length = max 5 2
    ∧ (runNResults [['a'], ['b']] 5 (fun _ _ => (none : Option (List Char))))[3]?
        = some none := by
  have h := runN_input_reconciliation 5 [['a'], ['b']] (fun _ _ => (none : Option (List Char)))
  refine ⟨h.1, ?_⟩
  have h2 := h.2.1 3 (by decide)
  simpa using h2

/-- C3: for every job set and executor, the dispatcher produces one result
per job (all `N` jobs are invoked and all `N` completions are consumed),
and for any delivery order of the completion channel the collected error
list has exactly `K` entries, where `K` jobs fail, with the same multiset
of error values. -/
theorem runN_dispatch_errors :
    ∀ (E : Type) (items : List (List Char)) (count : Nat)
      (f : Nat → List Char → Option E) (delivered : List (Option E)) (K : Nat),
    delivered.Perm (runNResults items count f) →
    K = (runNCollect (runNResults items count f)).length →
    (runNResults items count f).length = (reconcile items count).1
    ∧ (runNCollect delivered).length = K
    ∧ (runNCollect delivered).Perm (runNCollect (runNResults items count f)) := by
  intro E items count f delivered K hperm hK
  refine ⟨runNResults_length items count f, ?_, hperm.filterMap id⟩
  rw [hK]
  exact (hperm.filterMap id).length_eq

/-- C3 witness: two jobs of which exactly one fails, delivered in reverse
order. -/
theorem runN_dispatch_errors_witness :
    ([none, some 7] : List (Option Nat)).Perm
      (runNResults [['a']] 2 (fun i _ => if i = 0 then some 7 else none))
    ∧ (runNCollect ([none, some 7] : List (Option Nat))).length = 1
    ∧ (runNCollect ([none, some 7] : List (Option Nat))).Perm
        (runNCollect (runNResults [['a']] 2 (fun i _ => if i = 0 then some 7 else none))) := by
  have h := runN_dispatch_errors Nat [['a']] 2 (fun i _ => if i = 0 then some 7 else none)
    [none, some 7] 1 (by decide) (by decide)
  exact ⟨by decide, h.2.1, h.2.2⟩

/-- C4: in remote mode with `H` hosts and replication factor `c ≥ 1`
(and no more input lines than `c * H` jobs), the job count is `c * H`,
job `i` connects to `hosts[i / c]` (an in-bounds index) normalized with
port 22 when no colon is present; in particular hosts `["h1","h2"]` with
`c = 2` yield 4 jobs grouped contiguously: indices 0,1 on h1 and 2,3 on
h2. -/
theorem ssh_host_assignment :
    ∀ (hosts input : List (List Char)) (c : Nat), 1 ≤ c →
    input.length ≤ c * hosts.length →
    (sshRunHosts hosts c input).length = c * hosts.length
    ∧ (∀ i, i < c * hosts.length →
        i / c < hosts.length
        ∧ (sshRunHosts hosts c input)[i]? = some (normalizeHost (hosts.getD (i / c) [])))
    ∧ sshRunHosts [['h', '1'], ['h', '2']] 2 []
        = [['h', '1', ':', '2', '2'], ['h', '1', ':', '2', '2'],
           ['h', '2', ':', '2', '2'], ['h', '2', ':', '2', '2']] := by
  intro hosts input c hc hlen
  have hN : (reconcile input (c * hosts.length)).1 = c * hosts.length := by
    rw [reconcile_fst]
    exact Nat.max_eq_left hlen
  refine ⟨?_, ?_, by decide⟩
  · unfold sshRunHosts
    rw [List.length_map, List.length_range, hN]
  · intro i hi
    constructor
    · refine (Nat.div_lt_iff_lt_mul (Nat.lt_of_lt_of_le Nat.zero_lt_one hc)).mpr ?_
      rw [Nat.mul_comm]
      exact hi
    · unfold sshRunHosts
      rw [List.getElem?_map, List.getElem?_range (by rw [hN]; exact hi)]
      rfl

/-- C4 witness: a single host with replication factor 1. -/
theorem ssh_host_assignment_witness :
    (sshRunHosts [['x']] 1 []).length = 1 * 1
    ∧ (0 : Nat) / 1 < 1
    ∧ (sshRunHosts [['x']] 1 [])[0]? = some ['x', ':', '2', '2'] := by
  have h := ssh_host_assignment [['x']] [] 1 (by decide) (by decide)
  refine ⟨h.1, (h.2.1 0 (by decide)).1, ?_⟩
  have h2 := (h.2.1 0 (by decide)).2
  rw [h2]
  decide

/-- C5 counterexample: the claim says an empty host list is a fatal
configuration error that aborts before any job starts and is never a
successful zero-job run; but with two positional arguments, an empty
(readable) host file and no input, `sshCommand` dispatches `count * 0 = 0`
jobs, never invokes the executor, and returns nil — a successful run of
zero jobs. -/
theorem ssh_empty_hosts_zero_job_success :
    sshOutcome [['f'], ['c']] [] [] 1 (fun _ _ => some ['e']) = Except.ok [PEvent.ret none]
    ∧ runNResults [] (1 * 0) (fun _ _ => (some ['e'] : Option (List Char))) = [] :=
  ⟨rfl, rfl⟩

/-- C5 amended: `sshCommand` performs no empty-host-list check; its only
pre-dispatch validation of parsed data is requiring at least two
positional arguments.  With an empty host list and no input lines, the
run dispatches zero jobs and completes successfully (nil error, exit 0),
for every count and executor. -/
theorem ssh_empty_hosts_not_rejected :
    ∀ (a1 a2 : List Char) (count : Nat)
      (f : Nat → List Char → Option (List Char)),
    sshOutcome [a1, a2] [] [] count f = Except.ok [PEvent.ret none] := by
  intro a1 a2 count f
  rfl

/-- C6 counterexample: the claim says a count of 0 (meaning
"unspecified") yields one job; but `runN` with no input and count 0
reconciles to zero jobs, not one. -/
theorem count_zero_gives_zero_jobs :
    (reconcile [] 0).1 = 0
    ∧ runNResults [] 0 (fun _ _ => (none : Option (List Char))) = []
    ∧ (0 : Nat) ≠ 1 := by
  refine ⟨rfl, rfl, by decide⟩

/-- C6 amended: with input mode disabled the job count equals the count
reaching `runN` exactly (so an explicitly supplied 0 yields zero jobs);
a count of 1 arises when the flag is unsupplied only because the flag
declaration's default `Value: 1` is returned by the CLI layer; every
job's item is the empty string. -/
theorem runN_no_input :
    ∀ (supplied : Option Nat) (f : Nat → List Char → Option (List Char)),
    (runNResults [] (countFlag supplied) f).length = countFlag supplied
    ∧ (supplied = none → countFlag supplied = 1)
    ∧ (∀ i, i < countFlag supplied →
        (runNResults [] (countFlag supplied) f)[i]? = some (f i [])) := by
  intro supplied f
  refine ⟨?_, fun h => by rw [h]; rfl, ?_⟩
  · rw [runNResults_length, reconcile_fst]
    simp
  · intro i hi
    rw [runNResults_getElem [] (countFlag supplied) f i
      (by rw [reconcile_fst]; simpa using hi)]
    rw [reconcile_getD [] (countFlag supplied) i (by simpa using hi)]
    simp

/-- C6 witness: the unsupplied flag defaults to one job with empty item. -/
theorem runN_no_input_witness :
    (runNResults [] (countFlag none) (fun _ _ => (none : Option (List Char)))).length
      = countFlag none
    ∧ countFlag none = 1
    ∧ (runNResults [] (countFlag none) (fun _ _ => (none : Option (List Char))))[0]?
        = some none := by
  have h := runN_no_input none (fun _ _ => (none : Option (List Char)))
  refine ⟨h.1, h.2.1 rfl, ?_⟩
  have h2 := h.2.2 0 (by decide)
  simpa using h2

/-- C8: splitting input on newlines drops exactly the single empty
trailing item produced by a final terminating newline, and preserves
embedded blank lines in order: a text consisting of newline-terminated
lines reads back as exactly those lines, and a non-empty text not ending
in a newline reads back as its newline-split pieces unchanged. -/
theorem readLines_newline_handling :
    (∀ ls : List (List Char), (∀ l ∈ ls, '\n' ∉ l) →
      readLines ((ls.map (fun l => l ++ ['\n'])).flatten) = ls)
    ∧ (∀ text : List Char, text ≠ [] → text.getLast? ≠ some '\n' →
      readLines text = splitNL text) := by
  constructor
  · intro ls h
    unfold readLines
    rw [splitNL_join ls h, if_pos (by simp)]
    exact List.dropLast_concat
  · intro text h1 h2
    have hlast : (splitNL text).getLastD [] ≠ [] := by
      rw [List.getLastD_eq_getLast?]
      cases hx : (splitNL text).getLast? with
      | none => exact absurd (List.getLast?_eq_none_iff.mp hx) (splitNL_ne_nil text)
      | some x => simpa using splitNL_getLast_ne text h1 h2 x hx
    unfold readLines
    rw [if_neg hlast]

/-- C8 witness: a text with a trailing newline and an embedded blank
line, and a text without a trailing newline. -/
theorem readLines_newline_handling_witness :
    readLines ['a', '\n', '\n'] = [['a'], []]
    ∧ readLines ['a', '\n', 'b'] = splitNL ['a', '\n', 'b'] := by
  constructor
  · exact readLines_newline_handling.1 [['a'], []] (by decide)
  · exact readLines_newline_handling.2 ['a', '\n', 'b'] (by decide) (by decide)

/-- C9: `processErrors` prints every collected error individually to
standard error (with a trailing newline, in order) before its return
value is produced, and that return value is a non-nil aggregate error
exactly when the error list is non-empty, nil exactly when it is empty. -/
theorem processErrors_reporting :
    ∀ errs : List (List Char),
    (processErrors errs).dropLast = errs.map (fun e => PEvent.stderrLine (e ++ ['\n']))
    ∧ ((processErrors errs).getLast? = some (PEvent.ret (some someErrorsMsg)) ↔ errs ≠ [])
    ∧ ((processErrors errs).getLast? = some (PEvent.ret none) ↔ errs = []) := by
  intro errs
  have hlast : (processErrors errs).getLast?
      = some (PEvent.ret (if errs.length > 0 then some someErrorsMsg else none)) := by
    unfold processErrors
    simp
  refine ⟨List.dropLast_concat, ?_, ?_⟩ <;> rw [hlast] <;> cases errs <;> simp

/-- C10: the per-job host lookup `hosts[tid / count]` is in bounds for
every dispatched job whenever `count ≥ 1` and the input line count is at
most `count * len hosts`; the lookup fails for the configurations the
claim names: one host with count 1 but two input lines (index out of
range), and one host with count 0 and one input line (division by
zero). -/
theorem ssh_lookup_safety :
    (∀ (hosts input : List (List Char)) (count : Nat),
      1 ≤ count → input.length ≤ count * hosts.length → sshSafe hosts input count)
    ∧ ¬ sshSafe [['h']] [['a'], ['b']] 1
    ∧ ¬ sshSafe [['h']] [['a']] 0 := by
  refine ⟨?_, by unfold sshSafe; decide, by unfold sshSafe; decide⟩
  intro hosts input count hc hlen tid htid
  have hN : (reconcile input (count * hosts.length)).1 = count * hosts.length := by
    rw [reconcile_fst]
    exact Nat.max_eq_left hlen
  rw [hN] at htid
  refine ⟨by omega, ?_⟩
  refine (Nat.div_lt_iff_lt_mul (by omega)).mpr ?_
  rw [Nat.mul_comm]
  exact htid

/-- C10 witness: a one-host, count-1, no-input configuration satisfies
the precondition and every lookup is in bounds. -/
theorem ssh_lookup_safety_witness : sshSafe [['h']] [] 1 :=
  ssh_lookup_safety.1 [['h']] [] 1 (by decide) (by decide)

end Multi
